import Mathlib

/-!
Verification development for the streaming diff pipeline of
`diffoscope/diff.py`.  The Python module is shallowly embedded: lines are
Lean `String`s (the parser decodes the subprocess output to text), the
incremental parser's method-returning-method dispatch becomes an explicit
action tag plus a step function, machine integers are `Int` (Python ints are
unbounded), fallible code returns `Except`, and the two trailing-newline
rendezvous queues are explicit FIFO lists (a blocking `get` on an empty
queue would deadlock, modelled as an error).
-/

/-- Python `str.isspace`-style whitespace recognised by the `\s` class of
`DiffParser.RANGE_RE` (restricted to the characters that can actually occur
in a decoded diff line). -/
def isPySpace (c : Char) : Bool :=
  c = ' ' || c = '\t' || c = '\n' || c = '\r' || c = '\x0b' || c = '\x0c'

/-- Line terminators of Python `str.splitlines`, used by
`reverse_unified_diff` (`diff.splitlines(True)`). -/
def isLineTerm (c : Char) : Bool :=
  c = '\n' || c = '\r' || c = '\x0b' || c = '\x0c' ||
  c = '\x1c' || c = '\x1d' || c = '\x1e' || c = '\x85' ||
  c = '\u2028' || c = '\u2029'

/-- Splits a leading terminator from the rest, merging `\r\n` into one
terminator as `str.splitlines` does. -/
def crlfSplit (c : Char) (rest : List Char) : List Char × List Char :=
  if c = '\r' then
    if rest.head? = some '\n' then (['\r', '\n'], rest.tail) else (['\r'], rest)
  else ([c], rest)

theorem crlfSplit_snd_len (c : Char) (rest : List Char) :
    (crlfSplit c rest).2.length ≤ rest.length := by
  rcases rest with _ | ⟨a, tl⟩ <;> by_cases hc : c = '\r' <;>
    simp [crlfSplit, hc] <;> by_cases ha : a = '\n' <;> simp [ha]

theorem crlfSplit_append (c : Char) (rest : List Char) :
    (crlfSplit c rest).1 ++ (crlfSplit c rest).2 = c :: rest := by
  rcases rest with _ | ⟨a, tl⟩ <;> by_cases hc : c = '\r' <;>
    simp [crlfSplit, hc] <;> by_cases ha : a = '\n' <;> simp [ha, hc]

/-- Accumulator-based worker for Python `str.splitlines(keepends=True)`. -/
def splitAux : List Char → List Char → List (List Char)
  | [], acc => if acc.isEmpty then [] else [acc.reverse]
  | c :: rest, acc =>
    if isLineTerm c then
      (acc.reverse ++ (crlfSplit c rest).1) :: splitAux (crlfSplit c rest).2 []
    else
      splitAux rest (c :: acc)
termination_by l _ => l.length
decreasing_by
  · exact Nat.lt_succ_of_le (crlfSplit_snd_len c rest)
  · exact Nat.lt_succ_self _

/-- Python `str.splitlines(keepends=True)` on the character list of a string. -/
def pySplitLines (s : List Char) : List (List Char) := splitAux s []

/-- Requires one-or-more digits (`\d+` of `RANGE_RE`): returns the digit run
and the remainder, or `none` when the run is empty. -/
def reqDigits (s : List Char) : Option (List Char × List Char) :=
  if (s.takeWhile Char.isDigit).isEmpty then none
  else some (s.takeWhile Char.isDigit, s.dropWhile Char.isDigit)

/-- Requires one-or-more whitespace (`\s+` of `RANGE_RE`): returns the
remainder after the run, or `none` when the run is empty. -/
def reqSpaces (s : List Char) : Option (List Char) :=
  if (s.takeWhile isPySpace).isEmpty then none
  else some (s.dropWhile isPySpace)

/-- The optional `(,(?P<len>\d+))?` group of `RANGE_RE`. When a comma is not
followed by digits the group is left unmatched (the overall match then fails
at the following `\s+`, exactly as the regex backtracking would). -/
def optComma (s : List Char) : Option (List Char) × List Char :=
  match s with
  | ',' :: r =>
    match reqDigits r with
    | some (ds, r') => (some ds, r')
    | none => (none, s)
  | _ => (none, s)

/-- The four captured groups of `DiffParser.RANGE_RE`, as the matched
substrings: `start1`, `len1?`, `start2`, `len2?`. -/
abbrev RangeGroups := List Char × Option (List Char) × List Char × Option (List Char)

/-- Model of `DiffParser.RANGE_RE.match(line)`:
`^@@\s+-(?P<start1>\d+)(,(?P<len1>\d+))?\s+\+(?P<start2>\d+)(,(?P<len2>\d+))?\s+@@$`.
The final `$` (no MULTILINE flag) matches at the end of the string or just
before one trailing newline. -/
def rangeMatch (s : List Char) : Option RangeGroups :=
  match s with
  | '@' :: '@' :: r0 =>
    (reqSpaces r0).bind fun r1 =>
    match r1 with
    | '-' :: r2 =>
      (reqDigits r2).bind fun p1 =>
      let (l1, r4) := optComma p1.2
      (reqSpaces r4).bind fun r5 =>
      match r5 with
      | '+' :: r6 =>
        (reqDigits r6).bind fun p2 =>
        let (l2, r8) := optComma p2.2
        (reqSpaces r8).bind fun r9 =>
        match r9 with
        | '@' :: '@' :: r10 =>
          if r10 = [] ∨ r10 = ['\n'] then some (p1.1, l1, p2.1, l2) else none
        | _ => none
      | _ => none
    | _ => none
  | _ => none

/-- Python `int(...)` on a captured digit group. -/
def digitsVal (ds : List Char) : Nat :=
  ds.foldl (fun a c => 10 * a + (c.toNat - '0'.toNat)) 0

/-- Value `int(found.group(...))` when the optional length group matched, else the
default `1` (`read_headers` falls back to 1 for an omitted length). -/
def lenOrOne : Option (List Char) → Int
  | some ds => (digitsVal ds : Int)
  | none => 1

/-- Python `str.startswith` on character lists. -/
def hasPre : List Char → List Char → Bool
  | [], _ => true
  | _ :: _, [] => false
  | p :: ps, x :: xs => p = x && hasPre ps xs

/-- The `,len` suffix of one side of a rewritten hunk header
(`before += ',' + found.group('len2')` in `reverse_unified_diff`). -/
def optPart : Option (List Char) → List Char
  | some ds => ',' :: ds
  | none => []

/-- The string `'@@ -%s +%s @@\n' % (before, after)`: the header line rebuilt by
`reverse_unified_diff` from the captured groups. -/
def renderHeader (s1 : List Char) (l1 : Option (List Char))
    (s2 : List Char) (l2 : Option (List Char)) : List Char :=
  ['@', '@', ' ', '-'] ++ (s1 ++ optPart l1) ++ [' ', '+'] ++ (s2 ++ optPart l2) ++
    [' ', '@', '@', '\n']

/-- Per-line body of `reverse_unified_diff`: a hunk header has its two
`(start,len)` sides swapped, a leading `-` is rewritten to `+` and vice
versa, anything else passes through. -/
def rev1 (l : List Char) : List Char :=
  match rangeMatch l with
  | some (s1, l1, s2, l2) => renderHeader s2 l2 s1 l1
  | none =>
    match l with
    | '-' :: rest => '+' :: rest
    | '+' :: rest => '-' :: rest
    | _ => l

/-- Model of `reverse_unified_diff(diff)` from `diffoscope/diff.py`. -/
def reverse_unified_diff (d : String) : String :=
  String.mk ((pySplitLines d.data).map rev1).flatten

/-- ANSI codes of `color_unified_diff`. -/
def ansiReset : List Char := "\x1b[0m".data

/-- Code `'\033[31m'`. -/
def ansiRed : List Char := "\x1b[31m".data

/-- Code `'\033[32m'`. -/
def ansiGreen : List Char := "\x1b[32m".data

/-- Code `'\033[0;36m'`. -/
def ansiCyan : List Char := "\x1b[0;36m".data

/-- Exception raised by the `repl` callback of `color_unified_diff`: the
dict lookup raises `KeyError(m.group(1))` for a matched leading character
that is not one of its three keys. -/
inductive ColorErr where
  | keyError (c : Char)
deriving Repr, DecidableEq

/-- The character class `[+-@]` of `re_diff_change`: inside a class the
`-` makes this the RANGE from `+` (U+002B) to `@` (U+0040) — it also
matches `,` `.` `/` the digits `:` `;` `<` `=` `>` `?` — not the
three-character set. -/
def inClassRange (c : Char) : Bool :=
  '+' ≤ c && c ≤ '@'

/-- The `repl` callback of `color_unified_diff` applied at one line-anchored
scan position of `re_diff_change = ^([+-@]).*` (MULTILINE): when the line's
first character lies in the class range the match fires with group 1 the
leading character and group 0 the whole line up to (excluding) the newline,
and `repl` wraps group 0 in the colour found for group 1 in the dict
`{'-': RED, '@': CYAN, '+': GREEN}` — raising `KeyError` for any other
matched head.  A line whose first character is outside the range has no
match and is left unchanged. -/
def colorRepl (l : List Char) : Except ColorErr (List Char) :=
  match l with
  | [] => .ok []
  | c :: _ =>
    if inClassRange c then
      if c = '-' then .ok (ansiRed ++ l ++ ansiReset)
      else if c = '@' then .ok (ansiCyan ++ l ++ ansiReset)
      else if c = '+' then .ok (ansiGreen ++ l ++ ansiReset)
      else .error (.keyError c)
    else .ok l

/-- Splits off the text before the first `\n` (the maximal extent of `.*`
without DOTALL); `none` means no newline followed. -/
def splitFirstLine : List Char → List Char × Option (List Char)
  | [] => ([], none)
  | c :: rest =>
    if c = '\n' then ([], some rest)
    else
      let p := splitFirstLine rest
      (c :: p.1, p.2)

theorem splitFirstLine_some_len {s l r : List Char}
    (h : splitFirstLine s = (l, some r)) : r.length < s.length := by
  induction s generalizing l with
  | nil => simp [splitFirstLine] at h
  | cons c rest ih =>
    by_cases hc : c = '\n'
    · subst hc
      have he : splitFirstLine ('\n' :: rest) = ([], some rest) := by
        simp [splitFirstLine]
      rw [he] at h
      have hr : rest = r := by simpa using congrArg Prod.snd h
      subst hr
      simp
    · cases hsp : splitFirstLine rest with
      | mk a b =>
        have he : splitFirstLine (c :: rest) = (c :: a, b) := by
          simp [splitFirstLine, hc, hsp]
        rw [he] at h
        have hb : b = some r := by simpa using congrArg Prod.snd h
        subst hb
        exact Nat.lt_succ_of_lt (ih hsp)

/-- Model of `re_diff_change.sub(repl, diff)`: the MULTILINE scan; `^` anchors at the
start of the text and after every `\n`, so the text is processed one
newline-separated segment at a time. -/
def reSubColor (s : List Char) : Except ColorErr (List Char) :=
  match h : splitFirstLine s with
  | (l, none) => colorRepl l
  | (l, some r) => do
    let cl ← colorRepl l
    let rest ← reSubColor r
    .ok (cl ++ '\n' :: rest)
termination_by s.length
decreasing_by exact splitFirstLine_some_len h

/-- Model of `color_unified_diff(diff)` from `diffoscope/diff.py`; the
`KeyError` a `repl` call may raise propagates out of `re.sub`. -/
def color_unified_diff (d : String) : Except ColorErr String :=
  (reSubColor d.data).map String.mk

/-- Newline-separated segments of a text: the segments scanned by the
MULTILINE substitution. -/
def splitNl (s : List Char) : List (List Char) :=
  match h : splitFirstLine s with
  | (l, none) => [l]
  | (l, some r) => l :: splitNl r
termination_by s.length
decreasing_by exact splitFirstLine_some_len h

/-- Parse failures of `DiffParser` and the driver loop. -/
inductive PErr where
  /-- `ValueError('Unable to parse diff headers: %s' % repr(line))`. -/
  | headers (line : String)
  /-- `ValueError('Unable to parse diff hunk: %s' % repr(line))`. -/
  | hunk (line : String)
  /-- Python `TypeError`: arithmetic on a still-`None` field or the driver
  calling a `None` action (unreachable on well-formed diff streams). -/
  | typeErr
  /-- Python `IndexError`: `line[0]` on the empty flush line in
  `skip_block` while lines are still expected. -/
  | indexErr
  /-- A `Queue.get()` whose writer never arrives: the thread would block
  forever. -/
  | blocked
deriving Repr, DecidableEq

/-- The three handler methods a `DiffParser` action can be bound to
(`self._action`). -/
inductive DAction where
  | readHeaders
  | readHunk
  | skipBlock
deriving Repr, DecidableEq

/-- The mutable state of a `DiffParser`, plus the two trailing-newline
queues it may read. `blockLen` starts as `None` in the source but is always
written before it is read, so it is carried as a plain `Int` here. -/
structure DPState where
  /-- The pieces written to `self._diff` (a `StringIO`), in order. -/
  diff : List String
  /-- `self._success`. -/
  success : Bool
  /-- `self._remaining_hunk_lines`. -/
  remaining : Option Int
  /-- `self._block_len`. -/
  blockLen : Int
  /-- `self._direction`. -/
  direction : Option Char
  /-- `self._end_nl`. -/
  endNl : Option Bool
  /-- `self._max_lines = Config().max_diff_block_lines_saved`. -/
  maxLines : Int
  /-- Pending items of `end_nl_q1` (FIFO). -/
  q1 : List Bool
  /-- Pending items of `end_nl_q2` (FIFO). -/
  q2 : List Bool
deriving Repr, DecidableEq

namespace DiffParser

/-- The string `'%s' % self._direction` (the direction is a one-character string, or
`None` rendered as `"None"`). -/
def dirStr : Option Char → String
  | some d => String.singleton d
  | none => "None"

/-- The string `'%s[ %d lines removed ]\n' % (self._direction, removed)`. -/
def removedLine (dir : Option Char) (removed : Int) : String :=
  dirStr dir ++ "[ " ++ toString removed ++ " lines removed ]\n"

/-- The tail of `read_hunk` after a line has been accepted: write the line,
update the run tracker (`_direction`/`_block_len`), and hand over to
`skip_block` once the run reaches `_max_lines`. -/
def track (st : DPState) (line : String) (c : Char) :
    Option DAction × DPState :=
  let st := { st with diff := st.diff ++ [line] }
  if c = '-' ∨ c = '+' then
    let st :=
      if st.direction = some c then { st with blockLen := st.blockLen + 1 }
      else { st with blockLen := 1, direction := some c }
    if st.blockLen ≥ st.maxLines then (some .skipBlock, st)
    else (some .readHunk, st)
  else
    (some .readHunk, { st with blockLen := 1, direction := some c })

/-- Model of `DiffParser.read_headers`. -/
def read_headers (st : DPState) (line : String) :
    Except PErr (Option DAction × DPState) :=
  if line = "" then .ok (none, st)
  else if hasPre ['-', '-', '-'] line.data then .ok (some .readHeaders, st)
  else if hasPre ['+', '+', '+'] line.data then .ok (some .readHeaders, st)
  else
    match rangeMatch line.data with
    | none => .error (.headers line)
    | some (_, len1, _, len2) =>
      .ok (some .readHunk,
        { st with
          diff := st.diff ++ [line]
          remaining := some (lenOrOne len1 + lenOrOne len2)
          direction := none })

/-- Model of `DiffParser.read_hunk`. -/
def read_hunk (st : DPState) (line : String) :
    Except PErr (Option DAction × DPState) :=
  if line = "" then .ok (none, st)
  else
    match line.data with
    | [] => .ok (none, st)
    | c :: _ =>
      if c = ' ' then
        match st.remaining with
        | none => .error .typeErr
        | some r => .ok (track { st with remaining := some (r - 2) } line c)
      else if c = '+' ∨ c = '-' then
        match st.remaining with
        | none => .error .typeErr
        | some r => .ok (track { st with remaining := some (r - 1) } line c)
      else if c = '\\' then
        -- "When both files don't end with \n, do not show it as a difference"
        match st.endNl with
        | some e => if e then .ok (track st line c) else .ok (some .readHunk, st)
        | none =>
          match st.q1, st.q2 with
          | b1 :: t1, b2 :: t2 =>
            let e := b1 && b2
            let st := { st with endNl := some e, q1 := t1, q2 := t2 }
            if e then .ok (track st line c) else .ok (some .readHunk, st)
          | _, _ => .error .blocked
      else if st.remaining = some 0 then read_headers st line
      else .error (.hunk line)

/-- The flush half of `skip_block`: compute
`removed = self._block_len - Config().max_diff_block_lines_saved` and write
the summary line when it is nonzero. -/
def flushState (st : DPState) : DPState :=
  let removed := st.blockLen - st.maxLines
  if removed ≠ 0 then
    { st with diff := st.diff ++ [removedLine st.direction removed] }
  else st

/-- Model of `DiffParser.skip_block`. -/
def skip_block (st : DPState) (line : String) :
    Except PErr (Option DAction × DPState) :=
  if st.remaining = some 0 then read_hunk (flushState st) line
  else
    match line.data with
    | [] => .error .indexErr
    | c :: _ =>
      if some c ≠ st.direction then read_hunk (flushState st) line
      else
        match st.remaining with
        | none => .error .typeErr
        | some r =>
          .ok (some .skipBlock,
            { st with blockLen := st.blockLen + 1, remaining := some (r - 1) })

/-- Dispatch on the current bound method. -/
def step : DAction → DPState → String → Except PErr (Option DAction × DPState)
  | .readHeaders => read_headers
  | .readHunk => read_hunk
  | .skipBlock => skip_block

/-- The `for line in self._output` loop of `DiffParser.parse`. A handler
returning `None` mid-stream would make the next iteration call
`None(line)`, a `TypeError`. -/
def consume : DAction → DPState → List String →
    Except PErr (Option DAction × DPState)
  | a, st, [] => .ok (some a, st)
  | a, st, l :: ls => do
    let (a?, st') ← step a st l
    match a? with
    | some a' => consume a' st' ls
    | none => .error .typeErr

/-- Model of `DiffParser.parse`: run all stream lines, feed the final `''` to the
current handler, then set `self._success = True`. -/
def parseLines (st : DPState) (lines : List String) : Except PErr DPState := do
  let (a?, st') ← consume .readHeaders st lines
  match a? with
  | some a =>
    let (_, st'') ← step a st' ""
    .ok { st'' with success := true }
  | none => .error .typeErr

/-- A parser as freshly constructed by `DiffParser.__init__` for a given
configuration and queue contents. -/
def init (maxLines : Int) (q1 q2 : List Bool) : DPState :=
  { diff := []
    success := false
    remaining := none
    blockLen := 0
    direction := none
    endNl := none
    maxLines := maxLines
    q1 := q1
    q2 := q2 }

/-- Run of the machine used for run-truncation claims: consume hunk-body
lines starting from `read_hunk`, then flush with the final `''`. -/
def runHunkFlush (st : DPState) (lines : List String) : Except PErr DPState :=
  match consume .readHunk st lines with
  | .error e => .error e
  | .ok (some a, st') =>
    match step a st' "" with
    | .error e => .error e
    | .ok (_, st'') => .ok st''
  | .ok (none, _) => .error .typeErr

end DiffParser

/-- The result handling at the end of `run_diff`, as a function of the
subprocess's exit code, the parser's `success` flag and the parser's
accumulated text.  `raise subprocess.CalledProcessError(p.returncode, cmd,
output=diff)` is modelled by the exit code carried in the error (note the
source passes the module-level function `diff` — not any captured output —
as `output`). -/
def run_diff_logic (returncode : Int) (parsedOk : Bool) (diffText : String) :
    Except Int (Option String) :=
  if ¬ parsedOk ∧ returncode ≠ 0 ∧ returncode ≠ 1 then .error returncode
  else if returncode = 0 then .ok none
  else .ok (some diffText)

/-- Test `line_count < max_lines` where `max_lines` may be `float("inf")`
(modelled as `none`). -/
def ltMax (n : Nat) : Option Nat → Bool
  | none => true
  | some m => n < m

/-- The `for buf in in_file` loop of the feeder made by
`make_feeder_from_raw_reader`: per line, count it, filter it, write the
filtered line while the count is below the cap, and remember whether the
raw line ended with a newline.  The source lines are modelled as text with
the per-line `filter` doing any encoding, matching the adapter's intended
text-mode use.  The hash state is not threaded here: the digest consumed
exactly `filter(buf)` for every line, which the caller reproduces as
`sha1hex (inFile.map filt)`. -/
def feederLoop (filt : String → String) (maxLines : Option Nat) :
    List String → Nat → List String → Bool → Nat × List String × Bool
  | [], n, w, e => (n, w, e)
  | buf :: rest, n, w, _ =>
    let n' := n + 1
    let out := filt buf
    let w' := if ltMax n' maxLines then w ++ [out] else w
    feederLoop filt maxLines rest n' w' (buf.endsWith "\n")

/-- The string `"[ Too much input for diff (SHA1: {}) ]\n".format(h.hexdigest())`. -/
def tooMuchLine (hex : String) : String :=
  "[ Too much input for diff (SHA1: " ++ hex ++ ") ]\n"

/-- The feeder returned by `make_feeder_from_raw_reader(in_file, filter)`,
as a function from the raw lines to (lines written to `out_file`, returned
`end_nl`).  `maxLines` is `Config().max_diff_input_lines` (`none` = no cap:
no hash object is created); `sha1hex` stands for the SHA1 hex digest of the
concatenation of its argument (the external `hashlib` primitive). -/
def make_feeder_from_raw_reader (filt : String → String) (maxLines : Option Nat)
    (sha1hex : List String → String) (inFile : List String) :
    List String × Bool :=
  let r := feederLoop filt maxLines inFile 0 [] false
  match maxLines with
  | some m =>
    if r.1 ≥ m then
      (r.2.1 ++ [tooMuchLine (sha1hex (inFile.map filt))], true)
    else (r.2.1, r.2.2)
  | none => (r.2.1, r.2.2)

/-- Model of `feed(feeder, f, end_nl_q)`: run the feeder (its outcome is either a
trailing-newline report or a raised exception), put the report on the queue
on success, always close the sink.  The sink close is not observable here;
the first component is what the thread body does, the second the queue
afterwards. -/
def feed (outcome : Except String Bool) (q : List Bool) :
    Except String Unit × List Bool :=
  match outcome with
  | .ok b => (.ok (), q ++ [b])
  | .error e => (.error e, q)

namespace ExThread

/-- Model of `ExThread.run`: run the target; on an exception put it on the status
queue; always put a final `None`.  Returns the status queue contents. -/
def run (body : Except String Unit) : List (Option String) :=
  match body with
  | .error e => [some e, none]
  | .ok _ => [none]

/-- Model of `ExThread.join`: `get()` the first status item and re-raise it when it
is an exception.  (A `get()` on an empty queue would block; `run` always
puts at least one item before the thread ends.) -/
def join : List (Option String) → Except String Unit
  | some e :: _ => .error e
  | none :: _ => .ok ()
  | [] => .ok ()

end ExThread

/-- Model of `fd_from_feeder`: pump the feeder through `feed` on an `ExThread` and
join it; the outcome seen by the caller plus the trailing-newline queue. -/
def fd_from_feeder (outcome : Except String Bool) (q : List Bool) :
    Except String Unit × List Bool :=
  let r := feed outcome q
  (ExThread.join (ExThread.run r.1), r.2)

example : rangeMatch "@@ -3,4 +3,6 @@\n".data =
    some (['3'], some ['4'], ['3'], some ['6']) := by decide
example : rangeMatch "@@ -1 +1 @@".data = some (['1'], none, ['1'], none) := by
  decide
example : rangeMatch "@@ bad @@".data = none := by decide
example : rangeMatch "@@  -1  +1 @@\n".data = some (['1'], none, ['1'], none) := by
  decide

theorem dataCons_ne {s : String} {c : Char} {tl : List Char}
    (h : s.data = c :: tl) : ¬ s = "" := by
  intro he
  subst he
  have h0 : ("" : String).data = [] := rfl
  rw [h0] at h
  exact List.noConfusion h

theorem rangeMatch_head {s : List Char} {g : RangeGroups}
    (h : rangeMatch s = some g) : ∃ r, s = '@' :: '@' :: r := by
  unfold rangeMatch at h
  split at h
  · rename_i r0
    exact ⟨r0, rfl⟩
  · simp at h

/-- C1 (counterexample): with the first feeder reporting a trailing newline
(`True`) and the second reporting none (`False`), the two did not both end
without a trailing newline, so by the claim the marker line would have to
be emitted; the parser nevertheless suppresses it (the cached `_end_nl` is
`end_nl1 and end_nl2 = False`, and the marker is dropped whenever that
conjunction is falsy). -/
theorem c1_counterexample :
    DiffParser.parseLines (DiffParser.init 100 [true] [false])
      ["@@ -1 +1 @@\n", "-a\n", "\\ No newline at end of file\n", "+a\n"] =
      .ok { diff := ["@@ -1 +1 @@\n", "-a\n", "+a\n"], success := true,
            remaining := some 0, blockLen := 1, direction := some '+',
            endNl := some false, maxLines := 100, q1 := [], q2 := [] } ∧
    ("\\ No newline at end of file\n" : String) ∉
      (["@@ -1 +1 @@\n", "-a\n", "+a\n"] : List String) :=
  ⟨rfl, by decide⟩

/-- C1 (amended): on the first marker line the parser reads both
trailing-newline slots once and caches `end_nl1 and end_nl2`; it suppresses
the marker exactly when NOT both feeders reported that their content ended
WITH a trailing newline (i.e. when at least one side ended without one),
and emits it only when both ended with one; later markers reuse the cached
value without touching the queues. -/
theorem c1_amended (st : DPState) (line : String) (tl : List Char) (e1 e2 : Bool)
    (hn : st.endNl = none) (h1 : st.q1 = [e1]) (h2 : st.q2 = [e2])
    (hl : line.data = '\\' :: tl) :
    (DiffParser.read_hunk st line =
      if e1 && e2 then
        .ok (some .readHunk,
          { st with diff := st.diff ++ [line], blockLen := 1,
                    direction := some '\\', endNl := some true,
                    q1 := [], q2 := [] })
      else
        .ok (some .readHunk,
          { st with endNl := some false, q1 := [], q2 := [] })) ∧
    (∀ (st' : DPState) (line' : String) (tl' : List Char) (b : Bool),
      st'.endNl = some b → line'.data = '\\' :: tl' →
      DiffParser.read_hunk st' line' =
        if b then
          .ok (some .readHunk,
            { st' with diff := st'.diff ++ [line'], blockLen := 1,
                       direction := some '\\' })
        else .ok (some .readHunk, st')) := by
  constructor
  · have hne := dataCons_ne hl
    cases e1 <;> cases e2 <;>
      simp [DiffParser.read_hunk, DiffParser.track, hl, hne, hn, h1, h2]
  · intro st' line' tl' b hb hl'
    have hne := dataCons_ne hl'
    cases b <;>
      simp [DiffParser.read_hunk, DiffParser.track, hl', hne, hb]

theorem c1_amended_witness :
    DiffParser.read_hunk
      { DiffParser.init 3 [true] [false] with remaining := some 2 } "\\x\n" =
      .ok (some .readHunk,
        { { DiffParser.init 3 [true] [false] with remaining := some 2 } with
            endNl := some false, q1 := [], q2 := [] }) := by
  have h := (c1_amended
    { DiffParser.init 3 [true] [false] with remaining := some 2 }
    "\\x\n" "x\n".data true false rfl rfl rfl rfl).1
  simpa using h

/-- C2 (counterexample): `run_diff` raises only when the parse failed AND
the exit code is outside {0, 1}.  Exit code 2 with a successful parse
returns the parsed text instead of raising, and exit code 1 with a failed
parse returns the partial text instead of raising — both contradicting the
claim. -/
theorem c2_counterexample :
    run_diff_logic 2 true "parsed" = .ok (some "parsed") ∧
    run_diff_logic 1 false "partial" = .ok (some "partial") :=
  ⟨rfl, rfl⟩

/-- C2 (amended): exit code 0 returns the no-difference result (even after
a failed parse); any nonzero exit code returns the parser's accumulated
text whenever the parse succeeded, and exit code 1 does so even when it
failed; `CalledProcessError` is raised exactly when the parse failed and
the exit code is neither 0 nor 1 (and it carries the exit code; the
`output=` passed is the module-level `diff` function, not captured
output). -/
theorem c2_amended (rc : Int) (s : Bool) (d : String) :
    (rc = 0 → run_diff_logic rc s d = .ok none) ∧
    (rc ≠ 0 → (s = true ∨ rc = 1) → run_diff_logic rc s d = .ok (some d)) ∧
    (s = false → rc ≠ 0 → rc ≠ 1 → run_diff_logic rc s d = .error rc) := by
  refine ⟨fun h0 => ?_, fun h0 hs => ?_, fun hs h0 h1 => ?_⟩
  · simp [run_diff_logic, h0]
  · rcases hs with rfl | rfl
    · simp [run_diff_logic, h0]
    · simp [run_diff_logic]
  · simp [run_diff_logic, hs, h0, h1]

theorem c2_amended_witness :
    run_diff_logic 0 true "x" = .ok none :=
  (c2_amended 0 true "x").1 rfl

/-- C3 (counterexample): after `@@ -1 +1 @@` (expected weight 2) the line
`' a'` brings the count to 0 and the further body line `' b'` — neither a
hunk header nor rejected — is consumed and drives the count to −2; the
parse then completes successfully, so neither a negative count nor a body
line arriving after the count reached 0 raises a parse error, and the count
is not 0 at the end of the hunk. -/
theorem c3_counterexample :
    DiffParser.parseLines (DiffParser.init 100 [] [])
      ["@@ -1 +1 @@\n", " a\n", " b\n"] =
      .ok { diff := ["@@ -1 +1 @@\n", " a\n", " b\n"], success := true,
            remaining := some (-2), blockLen := 1, direction := some ' ',
            endNl := none, maxLines := 100, q1 := [], q2 := [] } := rfl

/-- C3 (amended): `read_headers` sets the count to len1+len2 (an omitted
length defaults to 1) and `read_hunk` decrements it by 2 for a context line
and by 1 for an addition or removal; a body line whose first character is
none of `' '`, `'+'`, `'-'`, `'\'` is re-dispatched as a new hunk header
exactly when the count is 0 and raises a parse failure otherwise.  The
count itself is never validated: it is not checked for 0 at end-of-input
and may go negative (see the counterexample).  For `@@ -3,4 +3,6 @@`
followed by a well-formed body, exactly 10 weighted body lines bring the
count to 0 at the boundary and the next header is then accepted. -/
theorem c3_amended :
    (∀ (st : DPState) (line : String) (g1 g3 : List Char)
       (g2 g4 : Option (List Char)),
      rangeMatch line.data = some (g1, g2, g3, g4) →
      DiffParser.read_headers st line =
        .ok (some .readHunk,
          { st with diff := st.diff ++ [line],
                    remaining := some (lenOrOne g2 + lenOrOne g4),
                    direction := none })) ∧
    (∀ (st : DPState) (line : String) (tl : List Char) (r : Int),
      line.data = ' ' :: tl → st.remaining = some r →
      DiffParser.read_hunk st line =
        .ok (DiffParser.track { st with remaining := some (r - 2) } line ' ')) ∧
    (∀ (st : DPState) (line : String) (c : Char) (tl : List Char) (r : Int),
      line.data = c :: tl → (c = '+' ∨ c = '-') → st.remaining = some r →
      DiffParser.read_hunk st line =
        .ok (DiffParser.track { st with remaining := some (r - 1) } line c)) ∧
    (∀ (st : DPState) (line : String) (c : Char) (tl : List Char),
      line.data = c :: tl → c ≠ ' ' → c ≠ '+' → c ≠ '-' → c ≠ '\\' →
      (st.remaining = some 0 →
        DiffParser.read_hunk st line = DiffParser.read_headers st line) ∧
      (st.remaining ≠ some 0 →
        DiffParser.read_hunk st line = .error (.hunk line))) ∧
    (DiffParser.consume .readHunk
        { diff := ["@@ -3,4 +3,6 @@\n"], success := false,
          remaining := some 10, blockLen := 0, direction := none,
          endNl := none, maxLines := 100, q1 := [], q2 := [] }
        [" c1\n", " c2\n", "-d1\n", "-d2\n", "+a1\n", "+a2\n", "+a3\n", "+a4\n"] =
      .ok (some .readHunk,
        { diff := ["@@ -3,4 +3,6 @@\n", " c1\n", " c2\n", "-d1\n", "-d2\n",
                   "+a1\n", "+a2\n", "+a3\n", "+a4\n"],
          success := false, remaining := some 0, blockLen := 4,
          direction := some '+', endNl := none, maxLines := 100,
          q1 := [], q2 := [] }) ∧
     DiffParser.parseLines (DiffParser.init 100 [] [])
        ["@@ -3,4 +3,6 @@\n", " c1\n", " c2\n", "-d1\n", "-d2\n",
         "+a1\n", "+a2\n", "+a3\n", "+a4\n", "@@ -9 +9 @@\n", " e\n"] =
      .ok { diff := ["@@ -3,4 +3,6 @@\n", " c1\n", " c2\n", "-d1\n", "-d2\n",
                     "+a1\n", "+a2\n", "+a3\n", "+a4\n", "@@ -9 +9 @@\n",
                     " e\n"],
            success := true, remaining := some 0, blockLen := 1,
            direction := some ' ', endNl := none, maxLines := 100,
            q1 := [], q2 := [] }) := by
  refine ⟨?_, ?_, ?_, ?_, rfl, rfl⟩
  · intro st line g1 g3 g2 g4 hm
    obtain ⟨r, hr⟩ := rangeMatch_head hm
    have hne : ¬ line = "" := dataCons_ne hr
    have hp1 : hasPre ['-', '-', '-'] line.data = false := by
      rw [hr]; simp [hasPre]
    have hp2 : hasPre ['+', '+', '+'] line.data = false := by
      rw [hr]; simp [hasPre]
    simp [DiffParser.read_headers, hne, hp1, hp2, hm]
  · intro st line tl r hl hrem
    have hne := dataCons_ne hl
    simp [DiffParser.read_hunk, hl, hne, hrem]
  · intro st line c tl r hl hc hrem
    have hne := dataCons_ne hl
    rcases hc with rfl | rfl <;> simp [DiffParser.read_hunk, hl, hne, hrem]
  · intro st line c tl hl h1 h2 h3 h4
    have hne := dataCons_ne hl
    constructor
    · intro h0
      simp [DiffParser.read_hunk, hl, hne, h1, h2, h3, h4, h0]
    · intro h0
      simp [DiffParser.read_hunk, hl, hne, h1, h2, h3, h4, h0]

theorem c3_amended_witness :
    DiffParser.read_headers (DiffParser.init 100 [] []) "@@ -3,4 +3,6 @@\n" =
      .ok (some .readHunk,
        { DiffParser.init 100 [] [] with
            diff := (DiffParser.init 100 [] []).diff ++ ["@@ -3,4 +3,6 @@\n"],
            remaining := some (lenOrOne (some ['4']) + lenOrOne (some ['6'])),
            direction := none }) :=
  c3_amended.1 (DiffParser.init 100 [] []) "@@ -3,4 +3,6 @@\n"
    ['3'] ['3'] (some ['4']) (some ['6']) (by decide)

/-- C7 (confirmed): an exception raised inside the feeder is put on the
`ExThread` status queue by `run` and re-raised unchanged by `join` on the
calling side of `fd_from_feeder`; a normal completion joins cleanly with
the trailing-newline report enqueued.  Nothing is swallowed: the join
result is exactly the feeder's outcome. -/
theorem c7_exception_propagation (outcome : Except String Bool) (q : List Bool) :
    (∀ e, outcome = .error e → (fd_from_feeder outcome q).1 = .error e) ∧
    (∀ b, outcome = .ok b →
      (fd_from_feeder outcome q).1 = .ok () ∧
      (fd_from_feeder outcome q).2 = q ++ [b]) := by
  constructor
  · rintro e rfl
    rfl
  · rintro b rfl
    exact ⟨rfl, rfl⟩

theorem c7_witness :
    (fd_from_feeder (.error "boom") []).1 = .error "boom" :=
  (c7_exception_propagation (.error "boom") []).1 "boom" rfl

/-- C8 (confirmed): in the header-reading state a non-empty line that is
not a `---`/`+++` file marker and fails `RANGE_RE` raises
`ValueError('Unable to parse diff headers: ...')` carrying that exact
line. -/
theorem c8_header_failure (st : DPState) (line : String)
    (h0 : ¬ line = "")
    (h1 : hasPre ['-', '-', '-'] line.data = false)
    (h2 : hasPre ['+', '+', '+'] line.data = false)
    (h3 : rangeMatch line.data = none) :
    DiffParser.read_headers st line = .error (.headers line) := by
  simp [DiffParser.read_headers, h0, h1, h2, h3]

theorem c8_witness :
    DiffParser.read_headers (DiffParser.init 100 [] []) "@@ bad @@" =
      .error (.headers "@@ bad @@") :=
  c8_header_failure (DiffParser.init 100 [] []) "@@ bad @@"
    (by decide) (by decide) (by decide) (by decide)

/-- C10 (confirmed): an emitted no-newline marker goes through the
run-tracker's catch-all branch, so the active direction becomes `'\'` and
the run length restarts at 1; a `+`/`-` line arriving right after it starts
a fresh run of length 1 (its direction differs from `'\'`), so truncation
counting restarts rather than continuing across the emitted marker. -/
theorem c10_marker_resets :
    (∀ (st : DPState) (line : String) (tl : List Char),
      line.data = '\\' :: tl → st.endNl = some true →
      DiffParser.read_hunk st line =
        .ok (some .readHunk,
          { st with diff := st.diff ++ [line], blockLen := 1,
                    direction := some '\\' })) ∧
    (∀ (st : DPState) (line : String) (c : Char) (tl : List Char) (r : Int),
      st.direction = some '\\' → line.data = c :: tl → (c = '+' ∨ c = '-') →
      st.remaining = some r →
      DiffParser.read_hunk st line =
        .ok (if (1 : Int) ≥ st.maxLines then some .skipBlock else some .readHunk,
          { st with diff := st.diff ++ [line], remaining := some (r - 1),
                    blockLen := 1, direction := some c })) := by
  constructor
  · intro st line tl hl hn
    have hne := dataCons_ne hl
    simp [DiffParser.read_hunk, DiffParser.track, hl, hne, hn]
  · intro st line c tl r hd hl hc hr
    have hne := dataCons_ne hl
    rcases hc with rfl | rfl <;>
      simp [DiffParser.read_hunk, DiffParser.track, hl, hne, hd, hr] <;>
      split <;> simp

theorem c10_witness :
    DiffParser.read_hunk { DiffParser.init 3 [] [] with endNl := some true }
      "\\x\n" =
      .ok (some .readHunk,
        { { DiffParser.init 3 [] [] with endNl := some true } with
            diff := ({ DiffParser.init 3 [] [] with endNl := some true }).diff
              ++ ["\\x\n"],
            blockLen := 1, direction := some '\\' }) :=
  c10_marker_resets.1 { DiffParser.init 3 [] [] with endNl := some true }
    "\\x\n" "x\n".data rfl rfl

/-- Final `end_nl` computed by the feeder loop: the report of the last raw
line read, or the incoming value when no line was read. -/
def lastEndNl (rest : List String) (e : Bool) : Bool :=
  match rest.getLast? with
  | some b => b.endsWith "\n"
  | none => e

theorem feederLoop_spec (filt : String → String) (m : Nat) :
    ∀ (rest : List String) (n : Nat) (w : List String) (e : Bool),
      feederLoop filt (some m) rest n w e =
        (n + rest.length,
         w ++ ((rest.take (m - 1 - n)).map filt),
         lastEndNl rest e) := by
  intro rest
  induction rest with
  | nil => intro n w e; simp [feederLoop, lastEndNl]
  | cons buf tl ih =>
    intro n w e
    rw [feederLoop, ih]
    refine Prod.ext ?_ (Prod.ext ?_ ?_) <;> simp only
    · simp
      omega
    · by_cases hlt : n + 1 < m
      · have htake : (buf :: tl).take (m - 1 - n) =
            buf :: tl.take (m - 1 - (n + 1)) := by
          have h1 : m - 1 - n = (m - 1 - (n + 1)) + 1 := by omega
          rw [h1]
          simp
        rw [htake]
        simp [ltMax, hlt]
      · have h0 : m - 1 - n = 0 := by omega
        have h1 : m - 1 - (n + 1) = 0 := by omega
        rw [h0, h1]
        simp [ltMax, hlt]
    · cases tl with
      | nil => simp [lastEndNl]
      | cons b2 t2 =>
        cases hgl : (b2 :: t2).getLast? with
        | none => simp at hgl
        | some b => simp [lastEndNl, hgl]

set_option maxRecDepth 8192 in
/-- C5 (counterexample): with the cap at 100 and 500 input lines the feeder
writes only 99 literal lines before the placeholder — the line that brings
the count up to the cap is itself already withheld (`line_count <
max_lines` is strict) — not the 100 the claim states. -/
theorem c5_counterexample :
    make_feeder_from_raw_reader id (some 100) (fun _ => "0")
        (List.replicate 500 "x\n") =
      (List.replicate 99 "x\n" ++ [tooMuchLine "0"], true) ∧
    (List.replicate 99 "x\n" ++ [tooMuchLine "0"] : List String) ≠
      List.replicate 100 "x\n" ++ [tooMuchLine "0"] :=
  ⟨rfl, by decide⟩

/-- C5 (amended): with the input-line cap `m` and at least `m` raw lines,
the feeder writes exactly the first `m − 1` filtered lines followed by one
placeholder `[ Too much input for diff (SHA1: <hex>) ]` whose digest is
taken over all consumed filtered content, and reports `True` as its
trailing-newline value (for a 500-line source and cap 100: 99 literal lines
plus the placeholder). -/
theorem c5_amended (filt : String → String) (m : Nat)
    (sha1hex : List String → String) (inFile : List String)
    (hlen : m ≤ inFile.length) :
    make_feeder_from_raw_reader filt (some m) sha1hex inFile =
      ((inFile.take (m - 1)).map filt ++
        [tooMuchLine (sha1hex (inFile.map filt))], true) := by
  unfold make_feeder_from_raw_reader
  rw [feederLoop_spec]
  simp only
  have hge : 0 + inFile.length ≥ m := by omega
  simp [hge, hlen]

theorem c5_witness :
    make_feeder_from_raw_reader id (some 3) (fun _ => "d")
        ["a\n", "b\n", "c\n", "d\n"] =
      (["a\n", "b\n"] ++ [tooMuchLine "d"], true) := by
  have h := c5_amended id 3 (fun _ => "d") ["a\n", "b\n", "c\n", "d\n"]
    (by decide)
  simpa using h

theorem read_hunk_run_first (st : DPState) (line : String) (d : Char)
    (tl : List Char) (r : Int) (hl : line.data = d :: tl)
    (hd : d = '+' ∨ d = '-') (hdir : st.direction ≠ some d)
    (hrem : st.remaining = some r) :
    DiffParser.read_hunk st line =
      .ok (if (1 : Int) ≥ st.maxLines then some .skipBlock else some .readHunk,
        { st with diff := st.diff ++ [line], remaining := some (r - 1),
                  blockLen := 1, direction := some d }) := by
  have hne := dataCons_ne hl
  rcases hd with rfl | rfl <;>
    simp [DiffParser.read_hunk, DiffParser.track, hl, hne, hdir, hrem] <;>
    split <;> simp

theorem read_hunk_run_cont (st : DPState) (line : String) (d : Char)
    (tl : List Char) (r : Int) (hl : line.data = d :: tl)
    (hd : d = '+' ∨ d = '-') (hdir : st.direction = some d)
    (hrem : st.remaining = some r) :
    DiffParser.read_hunk st line =
      .ok (if st.blockLen + 1 ≥ st.maxLines then some .skipBlock
           else some .readHunk,
        { st with diff := st.diff ++ [line], remaining := some (r - 1),
                  blockLen := st.blockLen + 1 }) := by
  have hne := dataCons_ne hl
  rcases hd with rfl | rfl <;>
    simp [DiffParser.read_hunk, DiffParser.track, hl, hne, hdir, hrem] <;>
    split <;> simp

theorem skip_block_cont (st : DPState) (line : String) (d : Char)
    (tl : List Char) (r : Int) (hl : line.data = d :: tl)
    (hdir : st.direction = some d) (hrem : st.remaining = some r)
    (hr0 : r ≠ 0) :
    DiffParser.skip_block st line =
      .ok (some .skipBlock,
        { st with blockLen := st.blockLen + 1, remaining := some (r - 1) }) := by
  simp [DiffParser.skip_block, hl, hdir, hrem, hr0]

theorem consume_cons_ok {a : DAction} {st : DPState} {l : String}
    {ls : List String} {a' : DAction} {st' : DPState}
    (h : DiffParser.step a st l = .ok (some a', st')) :
    DiffParser.consume a st (l :: ls) = DiffParser.consume a' st' ls := by
  simp only [DiffParser.consume, h]
  rfl

theorem consume_climb (d : Char) (hd : d = '+' ∨ d = '-') :
    ∀ (k : Nat) (ls rest : List String) (st : DPState) (r : Int),
      1 ≤ k → k ≤ ls.length →
      (∀ l ∈ ls, ∃ tl, l.data = d :: tl) →
      st.direction = some d → st.remaining = some r →
      st.blockLen + (k : Int) = st.maxLines → 1 ≤ st.blockLen →
      DiffParser.consume .readHunk st (ls ++ rest) =
        DiffParser.consume .skipBlock
          { st with diff := st.diff ++ ls.take k,
                    blockLen := st.blockLen + (k : Int),
                    remaining := some (r - (k : Int)) }
          (ls.drop k ++ rest) := by
  intro k
  induction k with
  | zero => intro ls rest st r h1; exact absurd h1 (by omega)
  | succ k ih =>
    intro ls rest st r h1 hk hls hdir hrem hmax hb
    cases ls with
    | nil => simp at hk
    | cons l ls1 =>
      obtain ⟨tl, hl⟩ := hls l (List.mem_cons_self _ _)
      have hstep := read_hunk_run_cont st l d tl r hl hd hdir hrem
      by_cases hk0 : k = 0
      · subst hk0
        have hif : st.blockLen + 1 ≥ st.maxLines := by
          push_cast at hmax
          omega
        rw [if_pos hif] at hstep
        rw [show (l :: ls1) ++ rest = l :: (ls1 ++ rest) from rfl,
          consume_cons_ok (show DiffParser.step .readHunk st l = _ from hstep)]
        congr 1
      · have hk1 : 1 ≤ k := by omega
        have hif : ¬ st.blockLen + 1 ≥ st.maxLines := by
          push_cast at hmax
          omega
        rw [if_neg hif] at hstep
        rw [show (l :: ls1) ++ rest = l :: (ls1 ++ rest) from rfl,
          consume_cons_ok (show DiffParser.step .readHunk st l = _ from hstep)]
        rw [ih ls1 rest
          { st with diff := st.diff ++ [l], blockLen := st.blockLen + 1,
                    remaining := some (r - 1) } (r - 1) hk1
          (by simpa using hk)
          (fun l' hl' => hls l' (List.mem_cons_of_mem _ hl'))
          hdir rfl
          (by dsimp only; push_cast at hmax ⊢; omega)
          (by dsimp only; omega)]
        congr 1
        cases st with
        | mk di su re bl dir en ml w1 w2 =>
          simp
          omega

theorem consume_skip_run (d : Char) :
    ∀ (ls rest : List String) (st : DPState) (r : Int),
      (∀ l ∈ ls, ∃ tl, l.data = d :: tl) →
      st.direction = some d → st.remaining = some r →
      (ls.length : Int) ≤ r →
      DiffParser.consume .skipBlock st (ls ++ rest) =
        DiffParser.consume .skipBlock
          { st with blockLen := st.blockLen + (ls.length : Int),
                    remaining := some (r - (ls.length : Int)) }
          (rest) := by
  intro ls
  induction ls with
  | nil =>
    intro rest st r hls hdir hrem hle
    have hst : ({ st with blockLen := st.blockLen + ((0 : Nat) : Int),
                          remaining := some (r - ((0 : Nat) : Int)) } : DPState)
        = st := by
      cases st with
      | mk di su re bl dir en ml w1 w2 =>
        simp_all
    simp only [List.length_nil] at hst ⊢
    rw [List.nil_append, hst]
  | cons l ls1 ih =>
    intro rest st r hls hdir hrem hle
    obtain ⟨tl, hl⟩ := hls l (List.mem_cons_self _ _)
    have hr0 : r ≠ 0 := by
      simp only [List.length_cons] at hle
      push_cast at hle
      omega
    have hstep := skip_block_cont st l d tl r hl hdir hrem hr0
    rw [show (l :: ls1) ++ rest = l :: (ls1 ++ rest) from rfl,
      consume_cons_ok (show DiffParser.step .skipBlock st l = _ from hstep)]
    rw [ih rest
      { st with blockLen := st.blockLen + 1, remaining := some (r - 1) }
      (r - 1)
      (fun l' hl' => hls l' (List.mem_cons_of_mem _ hl'))
      hdir rfl
      (by simp only [List.length_cons] at hle; push_cast at hle ⊢; omega)]
    congr 1
    cases st with
    | mk di su re bl dir en ml w1 w2 =>
      simp
      omega

theorem consume_fresh_run (d : Char) (hd : d = '+' ∨ d = '-') (m : Nat)
    (hm : 1 ≤ m) :
    ∀ (ls rest : List String) (st : DPState) (r : Int),
      (∀ l ∈ ls, ∃ tl, l.data = d :: tl) →
      st.direction = none → st.remaining = some r →
      st.maxLines = (m : Int) →
      m ≤ ls.length →
      DiffParser.consume .readHunk st (ls ++ rest) =
        DiffParser.consume .skipBlock
          { st with diff := st.diff ++ ls.take m,
                    blockLen := (m : Int),
                    remaining := some (r - (m : Int)),
                    direction := some d }
          (ls.drop m ++ rest) := by
  intro ls rest st r hls hdir hrem hmax hlen
  cases ls with
  | nil =>
    simp only [List.length_nil] at hlen
    omega
  | cons l ls1 =>
    obtain ⟨tl, hl⟩ := hls l (List.mem_cons_self _ _)
    have hdir' : st.direction ≠ some d := by rw [hdir]; simp
    have hstep := read_hunk_run_first st l d tl r hl hd hdir' hrem
    simp only [List.length_cons] at hlen
    by_cases hm1 : m = 1
    · subst hm1
      have hif : (1 : Int) ≥ st.maxLines := by rw [hmax]; simp
      rw [if_pos hif] at hstep
      rw [show (l :: ls1) ++ rest = l :: (ls1 ++ rest) from rfl,
        consume_cons_ok (show DiffParser.step .readHunk st l = _ from hstep)]
      congr 1
    · have hif : ¬ (1 : Int) ≥ st.maxLines := by
        rw [hmax]
        omega
      rw [if_neg hif] at hstep
      rw [show (l :: ls1) ++ rest = l :: (ls1 ++ rest) from rfl,
        consume_cons_ok (show DiffParser.step .readHunk st l = _ from hstep)]
      have hclimb := consume_climb d hd (m - 1) ls1 rest
        { st with diff := st.diff ++ [l], remaining := some (r - 1),
                  blockLen := 1, direction := some d }
        (r - 1)
        (by omega)
        (by omega)
        (fun l' hl' => hls l' (List.mem_cons_of_mem _ hl'))
        rfl rfl
        (by dsimp only; rw [hmax]; omega)
        (by norm_num)
      rw [hclimb]
      congr 1
      · cases st with
        | mk di su re bl dir en ml w1 w2 =>
          rw [show m = (m - 1) + 1 from by omega]
          simp
          omega
      · rw [show m = (m - 1) + 1 from by omega]
        simp

theorem c4_general (m : Nat) (d : Char) (ls : List String) (st : DPState)
    (hm : 1 ≤ m) (hd : d = '+' ∨ d = '-')
    (hls : ∀ l ∈ ls, ∃ tl, l.data = d :: tl)
    (hlen : m < ls.length)
    (hdir : st.direction = none)
    (hrem : st.remaining = some (ls.length : Int))
    (hmax : st.maxLines = (m : Int)) :
    DiffParser.runHunkFlush st ls =
      .ok
        { st with
            diff := st.diff ++ ls.take m ++
              [DiffParser.removedLine (some d) ((ls.length : Int) - (m : Int))]
            remaining := some 0
            blockLen := (ls.length : Int)
            direction := some d } := by
  have h1 := consume_fresh_run d hd m hm ls [] st ((ls.length : Int)) hls hdir
    hrem hmax (Nat.le_of_lt hlen)
  simp only [List.append_nil] at h1
  have h2 := consume_skip_run d (ls.drop m) []
    { st with
        diff := st.diff ++ ls.take m
        blockLen := (m : Int)
        remaining := some ((ls.length : Int) - (m : Int))
        direction := some d }
    ((ls.length : Int) - (m : Int))
    (fun l' hl' => hls l' (List.mem_of_mem_drop hl'))
    rfl rfl
    (by simp; omega)
  simp only [List.append_nil] at h2
  rw [h2] at h1
  have hstGood :
      ({ { st with
            diff := st.diff ++ ls.take m
            blockLen := (m : Int)
            remaining := some ((ls.length : Int) - (m : Int))
            direction := some d } with
          blockLen := (m : Int) + ((ls.drop m).length : Int)
          remaining := some (((ls.length : Int) - (m : Int)) -
            ((ls.drop m).length : Int)) } : DPState) =
      { st with
          diff := st.diff ++ ls.take m
          blockLen := (ls.length : Int)
          remaining := some 0
          direction := some d } := by
    cases st with
    | mk di su re bl dir en ml w1 w2 =>
      simp
      constructor <;> omega
  rw [hstGood] at h1
  rw [show DiffParser.consume .skipBlock
      { st with
          diff := st.diff ++ ls.take m
          blockLen := (ls.length : Int)
          remaining := some 0
          direction := some d } [] =
      .ok (some .skipBlock,
        { st with
            diff := st.diff ++ ls.take m
            blockLen := (ls.length : Int)
            remaining := some 0
            direction := some d }) from rfl] at h1
  have hflush : DiffParser.step .skipBlock
      { st with
          diff := st.diff ++ ls.take m
          blockLen := (ls.length : Int)
          remaining := some 0
          direction := some d } "" =
      .ok (none,
        { st with
            diff := st.diff ++ ls.take m ++
              [DiffParser.removedLine (some d) ((ls.length : Int) - (m : Int))]
            blockLen := (ls.length : Int)
            remaining := some 0
            direction := some d }) := by
    have hne0 : ((ls.length : Int) - (m : Int)) ≠ 0 := by omega
    show DiffParser.skip_block _ "" = _
    simp [DiffParser.skip_block, DiffParser.flushState, DiffParser.read_hunk,
      hmax, hne0]
  unfold DiffParser.runHunkFlush
  rw [h1]
  dsimp only
  rw [hflush]

/-- C4 (confirmed): with the retained-block maximum at 3, ten uninterrupted
`+` lines yield exactly 3 retained `+` lines and the single summary
`+[ 7 lines removed ]`; in general an uninterrupted same-direction run of
length L > max (fed as a fresh hunk of weight L) retains exactly max lines
and appends one `<direction>[ L−max lines removed ]` summary when the run
ends, and a line that ends the run from `skip_block` is replayed through
`read_hunk` after the summary is flushed. -/
theorem c4_truncation :
    (DiffParser.parseLines (DiffParser.init 3 [] [])
        (["@@ -0,0 +1,10 @@\n"] ++ List.replicate 10 "+x\n") =
      .ok { diff := ["@@ -0,0 +1,10 @@\n", "+x\n", "+x\n", "+x\n",
                     "+[ 7 lines removed ]\n"],
            success := true, remaining := some 0, blockLen := 10,
            direction := some '+', endNl := none, maxLines := 3,
            q1 := [], q2 := [] }) ∧
    (∀ (m : Nat) (d : Char) (ls : List String) (st : DPState),
      1 ≤ m → (d = '+' ∨ d = '-') →
      (∀ l ∈ ls, ∃ tl, l.data = d :: tl) →
      m < ls.length → st.direction = none →
      st.remaining = some (ls.length : Int) → st.maxLines = (m : Int) →
      DiffParser.runHunkFlush st ls =
        .ok
          { st with
              diff := st.diff ++ ls.take m ++
                [DiffParser.removedLine (some d)
                  ((ls.length : Int) - (m : Int))]
              remaining := some 0
              blockLen := (ls.length : Int)
              direction := some d }) ∧
    (∀ (st : DPState) (line : String) (c : Char) (tl : List Char),
      line.data = c :: tl → some c ≠ st.direction →
      DiffParser.skip_block st line =
        DiffParser.read_hunk (DiffParser.flushState st) line) := by
  refine ⟨rfl, ?_, ?_⟩
  · intro m d ls st hm hd hls hlen hdir hrem hmax
    exact c4_general m d ls st hm hd hls hlen hdir hrem hmax
  · intro st line c tl hl hdir
    by_cases h0 : st.remaining = some 0
    · simp [DiffParser.skip_block, h0]
    · simp [DiffParser.skip_block, h0, hl, hdir]

theorem c4_witness :
    DiffParser.runHunkFlush { DiffParser.init 2 [] [] with remaining := some 3 }
        ["+a\n", "+b\n", "+c\n"] =
      .ok { diff := ["+a\n", "+b\n", "+[ 1 lines removed ]\n"],
            success := false, remaining := some 0, blockLen := 3,
            direction := some '+', endNl := none, maxLines := 2,
            q1 := [], q2 := [] } := by
  have h := c4_truncation.2.1 2 '+' ["+a\n", "+b\n", "+c\n"]
    { DiffParser.init 2 [] [] with remaining := some 3 }
    (by norm_num) (Or.inl rfl)
    (by
      intro l hl
      simp only [List.mem_cons, List.not_mem_nil, or_false] at hl
      rcases hl with rfl | rfl | rfl
      · exact ⟨"a\n".data, rfl⟩
      · exact ⟨"b\n".data, rfl⟩
      · exact ⟨"c\n".data, rfl⟩)
    (by norm_num) rfl (by norm_num) (by norm_num [DiffParser.init])
  rw [h]
  rfl

/-- Line-wise recombination of the substitution results: the replacement
(or crash) of each newline-separated segment, re-joined with the newlines;
a raised `KeyError` from an earlier line propagates before later lines are
scanned. -/
def joinColored : List (Except ColorErr (List Char)) → Except ColorErr (List Char)
  | [] => .ok []
  | [e] => e
  | e :: es => do
    let l ← e
    let rest ← joinColored es
    .ok (l ++ '\n' :: rest)

theorem splitNl_ne_nil (s : List Char) : splitNl s ≠ [] := by
  unfold splitNl
  split <;> simp

theorem reSubColor_line_map (s : List Char) :
    reSubColor s = joinColored ((splitNl s).map colorRepl) := by
  induction s using reSubColor.induct with
  | case1 s l h =>
    unfold reSubColor splitNl
    rw [h]
    simp [joinColored]
  | case2 s l r h ih =>
    unfold reSubColor splitNl
    rw [h]
    dsimp only
    rw [ih]
    cases hs : splitNl r with
    | nil => exact absurd hs (splitNl_ne_nil r)
    | cons a as =>
      simp [joinColored]

/-- C9 (counterexample): the class `[+-@]` of `re_diff_change` is the
character range U+002B to U+0040, so a line starting with `,` (or a digit,
`=`, `:`, ...) is matched, and the `repl` dict lookup then raises
`KeyError` — the program crashes where the claim says the line is left
byte-for-byte untouched. -/
theorem c9_counterexample :
    color_unified_diff ",x\n" = .error (.keyError ',') ∧
    (Except.error (ColorErr.keyError ',') : Except ColorErr String) ≠
      .ok ",x\n" := by
  constructor
  · unfold color_unified_diff reSubColor
    rw [show splitFirstLine ",x\n".data = ([',', 'x'], some []) from by decide]
    rfl
  · intro h
    exact Except.noConfusion h

/-- C9 (amended): the substitution processes the text one
newline-separated line at a time; a line starting `@` is wrapped in cyan,
`+` in green, `-` in red, each with the ANSI reset appended at the end of
the styled segment before the following newline; a line whose first
character lies elsewhere in the class range U+002B to U+0040 (`,` `.` `/`
digits `:` `;` `<` `=` `>` `?`) makes the `repl` callback raise `KeyError`;
and only a line whose first character is outside that range — in
particular context lines, marker lines and the empty tail — is kept
byte-for-byte. -/
theorem c9_amended :
    (∀ d : String, color_unified_diff d =
      (joinColored ((splitNl d.data).map colorRepl)).map String.mk) ∧
    (∀ (tl : List Char), colorRepl ('@' :: tl) =
      .ok (ansiCyan ++ ('@' :: tl) ++ ansiReset)) ∧
    (∀ (tl : List Char), colorRepl ('+' :: tl) =
      .ok (ansiGreen ++ ('+' :: tl) ++ ansiReset)) ∧
    (∀ (tl : List Char), colorRepl ('-' :: tl) =
      .ok (ansiRed ++ ('-' :: tl) ++ ansiReset)) ∧
    (∀ (c : Char) (tl : List Char), inClassRange c = true →
      c ≠ '-' → c ≠ '@' → c ≠ '+' →
      colorRepl (c :: tl) = .error (.keyError c)) ∧
    (∀ (l : List Char),
      (∀ (c : Char) (tl : List Char), l = c :: tl → inClassRange c = false) →
      colorRepl l = .ok l) := by
  refine ⟨?_, fun tl => rfl, fun tl => rfl, fun tl => rfl, ?_, ?_⟩
  · intro d
    unfold color_unified_diff
    rw [reSubColor_line_map]
  · intro c tl hc h1 h2 h3
    simp [colorRepl, hc, h1, h2, h3]
  · intro l hl
    cases l with
    | nil => rfl
    | cons c tl =>
      simp [colorRepl, hl c tl rfl]

theorem c9_witness :
    colorRepl (':' :: "rest".data) = .error (.keyError ':') :=
  c9_amended.2.2.2.2.1 ':' "rest".data (by decide) (by decide) (by decide)
    (by decide)

theorem takeWhile_app_of (p : Char → Bool) (xs ys : List Char)
    (h1 : ∀ x ∈ xs, p x = true)
    (h2 : ∀ c, ys.head? = some c → p c = false) :
    (xs ++ ys).takeWhile p = xs ∧ (xs ++ ys).dropWhile p = ys := by
  induction xs with
  | nil =>
    cases ys with
    | nil => exact ⟨rfl, rfl⟩
    | cons y t =>
      have := h2 y rfl
      simp [List.takeWhile_cons, List.dropWhile_cons, this]
  | cons x xs ih =>
    have hx := h1 x (List.mem_cons_self _ _)
    have ih' := ih (fun a ha => h1 a (List.mem_cons_of_mem _ ha))
    simp [List.takeWhile_cons, List.dropWhile_cons, hx, ih'.1, ih'.2]

theorem reqSpaces_cons_nonspace (y : Char) (t : List Char)
    (hns : isPySpace y = false) :
    reqSpaces (' ' :: y :: t) = some (y :: t) := by
  simp [reqSpaces, List.takeWhile_cons, List.dropWhile_cons, hns,
    show isPySpace ' ' = true from rfl]

theorem reqDigits_build_cons (ds : List Char) (y : Char) (t : List Char)
    (h1 : ds ≠ []) (h2 : ds.all Char.isDigit = true)
    (h3 : y.isDigit = false) :
    reqDigits (ds ++ y :: t) = some (ds, y :: t) := by
  rw [List.all_eq_true] at h2
  obtain ⟨ht, hd⟩ := takeWhile_app_of Char.isDigit ds (y :: t) h2
    (by intro x hx; simp at hx; subst hx; exact h3)
  simp [reqDigits, ht, hd, h1]

theorem optComma_cons_some (ds : List Char) (y : Char) (t : List Char)
    (h1 : ds ≠ []) (h2 : ds.all Char.isDigit = true)
    (h3 : y.isDigit = false) :
    optComma (',' :: (ds ++ y :: t)) = (some ds, y :: t) := by
  simp [optComma, reqDigits_build_cons ds y t h1 h2 h3]

theorem optComma_cons_none (y : Char) (t : List Char) (h : ¬ y = ',') :
    optComma (y :: t) = (none, y :: t) := by
  unfold optComma
  split <;> simp_all

theorem renderHeader_match (a c : List Char) (b d : Option (List Char))
    (ha1 : a ≠ []) (ha2 : a.all Char.isDigit = true)
    (hc1 : c ≠ []) (hc2 : c.all Char.isDigit = true)
    (hb : ∀ ds, b = some ds → ds ≠ [] ∧ ds.all Char.isDigit = true)
    (hd : ∀ ds, d = some ds → ds ≠ [] ∧ ds.all Char.isDigit = true) :
    rangeMatch (renderHeader a b c d) = some (a, b, c, d) := by
  rcases b with _ | db <;> rcases d with _ | dd
  · simp [renderHeader, optPart, rangeMatch, reqSpaces_cons_nonspace,
      reqDigits_build_cons, optComma_cons_none, optComma_cons_some,
      ha1, ha2, hc1, hc2, isPySpace,
      show Char.isDigit ' ' = false from rfl]
  · obtain ⟨hd1, hd2⟩ := hd dd rfl
    simp [renderHeader, optPart, rangeMatch, reqSpaces_cons_nonspace,
      reqDigits_build_cons, optComma_cons_none, optComma_cons_some,
      ha1, ha2, hc1, hc2, hd1, hd2, isPySpace,
      show Char.isDigit ' ' = false from rfl]
  · obtain ⟨hb1, hb2⟩ := hb db rfl
    simp [renderHeader, optPart, rangeMatch, reqSpaces_cons_nonspace,
      reqDigits_build_cons, optComma_cons_none, optComma_cons_some,
      ha1, ha2, hc1, hc2, hb1, hb2, isPySpace,
      show Char.isDigit ' ' = false from rfl]
  · obtain ⟨hb1, hb2⟩ := hb db rfl
    obtain ⟨hd1, hd2⟩ := hd dd rfl
    simp [renderHeader, optPart, rangeMatch, reqSpaces_cons_nonspace,
      reqDigits_build_cons, optComma_cons_none, optComma_cons_some,
      ha1, ha2, hc1, hc2, hb1, hb2, hd1, hd2, isPySpace,
      show Char.isDigit ' ' = false from rfl]

theorem reqDigits_some_fst {s : List Char} {p : List Char × List Char}
    (h : reqDigits s = some p) :
    p.1 ≠ [] ∧ p.1.all Char.isDigit = true := by
  unfold reqDigits at h
  split at h
  · exact absurd h (by simp)
  · rename_i hne
    rw [Option.some.injEq] at h
    subst h
    refine ⟨by simpa using hne, ?_⟩
    rw [List.all_eq_true]
    intro x hx
    exact List.mem_takeWhile_imp hx

theorem optComma_fst_digits (s : List Char) {ds : List Char}
    (h : (optComma s).1 = some ds) :
    ds ≠ [] ∧ ds.all Char.isDigit = true := by
  unfold optComma at h
  split at h
  · split at h
    · rename_i p hp
      rw [Option.some.injEq] at h
      subst h
      have := reqDigits_some_fst hp
      simpa using this
    · simp at h
  · simp at h

theorem rangeMatch_digits {l : List Char} {a c : List Char}
    {b d : Option (List Char)}
    (h : rangeMatch l = some (a, b, c, d)) :
    (a ≠ [] ∧ a.all Char.isDigit = true) ∧
    (∀ ds, b = some ds → ds ≠ [] ∧ ds.all Char.isDigit = true) ∧
    (c ≠ [] ∧ c.all Char.isDigit = true) ∧
    (∀ ds, d = some ds → ds ≠ [] ∧ ds.all Char.isDigit = true) := by
  unfold rangeMatch at h
  split at h
  · simp only [Option.bind_eq_some] at h
    obtain ⟨r1, hr1, h⟩ := h
    split at h
    · simp only [Option.bind_eq_some] at h
      obtain ⟨p1, hp1, r5, hr5, h⟩ := h
      split at h
      · simp only [Option.bind_eq_some] at h
        obtain ⟨p2, hp2, r9, hr9, h⟩ := h
        split at h
        · split at h
          · rw [Option.some.injEq] at h
            have ha : p1.1 = a := congrArg (fun x => x.1) h
            have hbb : (optComma p1.2).1 = b := congrArg (fun x => x.2.1) h
            have hcc : p2.1 = c := congrArg (fun x => x.2.2.1) h
            have hdd : (optComma p2.2).1 = d := congrArg (fun x => x.2.2.2) h
            refine ⟨?_, ?_, ?_, ?_⟩
            · rw [← ha]
              exact reqDigits_some_fst hp1
            · intro ds hds
              exact optComma_fst_digits p1.2 (by rw [hbb, hds])
            · rw [← hcc]
              exact reqDigits_some_fst hp2
            · intro ds hds
              exact optComma_fst_digits p2.2 (by rw [hdd, hds])
          · simp at h
        · simp at h
      · simp at h
    · simp at h
  · simp at h

theorem digit_not_term {x : Char} (h : x.isDigit = true) :
    isLineTerm x = false := by
  by_contra hc
  rw [Bool.not_eq_false] at hc
  unfold isLineTerm at hc
  simp only [Bool.or_eq_true, decide_eq_true_eq] at hc
  rcases hc with
    ((((((((rfl | rfl) | rfl) | rfl) | rfl) | rfl) | rfl) | rfl) | rfl) | rfl <;>
    exact absurd h (by decide)

theorem splitAux_flatten :
    ∀ (n : Nat) (s : List Char), s.length ≤ n → ∀ acc : List Char,
      (splitAux s acc).flatten = acc.reverse ++ s := by
  intro n
  induction n with
  | zero =>
    intro s hs acc
    have hnil : s = [] := by cases s <;> simp_all
    subst hnil
    unfold splitAux
    by_cases ha : acc.isEmpty
    · rw [List.isEmpty_iff] at ha
      subst ha
      simp
    · simp [ha]
  | succ n ih =>
    intro s hs acc
    cases s with
    | nil =>
      unfold splitAux
      by_cases ha : acc.isEmpty
      · rw [List.isEmpty_iff] at ha
        subst ha
        simp
      · simp [ha]
    | cons c rest =>
      simp only [List.length_cons, Nat.succ_le_succ_iff] at hs
      unfold splitAux
      by_cases hterm : isLineTerm c = true
      · rw [if_pos hterm]
        simp only [List.flatten_cons]
        rw [ih _ (le_trans (crlfSplit_snd_len c rest) hs) []]
        simp only [List.reverse_nil, List.nil_append, List.append_assoc]
        rw [crlfSplit_append c rest]
      · rw [if_neg hterm]
        rw [ih _ hs (c :: acc)]
        simp

theorem splitAux_nil (acc : List Char) :
    splitAux [] acc = if acc.isEmpty then [] else [acc.reverse] := by
  conv_lhs => unfold splitAux

theorem splitAux_cons (c : Char) (rest acc : List Char) :
    splitAux (c :: rest) acc =
      if isLineTerm c = true then
        (acc.reverse ++ (crlfSplit c rest).1) :: splitAux (crlfSplit c rest).2 []
      else splitAux rest (c :: acc) := by
  conv_lhs => unfold splitAux

theorem splitAux_line (q : List Char) :
    ∀ (rest acc : List Char), (∀ x ∈ q, isLineTerm x = false) →
      splitAux (q ++ '\n' :: rest) acc =
        ((acc.reverse ++ q) ++ ['\n']) :: splitAux rest [] := by
  induction q with
  | nil =>
    intro rest acc _
    rw [List.nil_append, splitAux_cons,
      if_pos (show isLineTerm '\n' = true from rfl)]
    have hcr : crlfSplit '\n' rest = (['\n'], rest) := by
      simp [crlfSplit]
    simp [hcr]
  | cons x q ih =>
    intro rest acc hq
    have hx : isLineTerm x = false := hq x (List.mem_cons_self _ _)
    rw [List.cons_append, splitAux_cons, if_neg (by simp [hx]),
      ih rest (x :: acc) (fun y hy => hq y (List.mem_cons_of_mem _ hy))]
    simp

theorem splitAux_of_shape (L : List (List Char))
    (hL : ∀ l ∈ L, ∃ q, l = q ++ ['\n'] ∧ ∀ x ∈ q, isLineTerm x = false) :
    splitAux L.flatten [] = L := by
  induction L with
  | nil => simp [splitAux_nil]
  | cons l L ih =>
    obtain ⟨q, hql, hq⟩ := hL l (List.mem_cons_self _ _)
    have hrest := ih (fun l' hl' => hL l' (List.mem_cons_of_mem _ hl'))
    rw [List.flatten_cons, hql, List.append_assoc,
      show (['\n'] ++ L.flatten) = '\n' :: L.flatten from rfl,
      splitAux_line q L.flatten [] hq, hrest]
    simp [hql]

/-- Decidable side conditions under which `reverse_unified_diff` is an
involution: the line ends with `'\n'`, contains no other line-terminator
character, and, when it matches `RANGE_RE`, is in the canonical
single-space form that `diff` itself emits (the exact form
`reverse_unified_diff` re-renders). -/
def lineOKb (l : List Char) : Bool :=
  (match l.getLast? with
   | some c => c = '\n'
   | none => false) &&
  (l.dropLast.all fun x => ! isLineTerm x) &&
  (match rangeMatch l with
   | none => true
   | some (a, b, c, d) => l == renderHeader a b c d)

theorem lineOKb_shape {l : List Char} (h : lineOKb l = true) :
    ∃ q, l = q ++ ['\n'] ∧ ∀ x ∈ q, isLineTerm x = false := by
  unfold lineOKb at h
  simp only [Bool.and_eq_true] at h
  obtain ⟨⟨h1, h2⟩, h3⟩ := h
  cases hgl : l.getLast? with
  | none => rw [hgl] at h1; simp at h1
  | some c =>
    rw [hgl] at h1
    simp only [decide_eq_true_eq] at h1
    subst h1
    have hne : l ≠ [] := by
      intro he
      subst he
      simp at hgl
    refine ⟨l.dropLast, ?_, ?_⟩
    · have := List.dropLast_append_getLast hne
      rw [List.getLast?_eq_getLast l hne, Option.some.injEq] at hgl
      rw [hgl] at this
      exact this.symm
    · intro x hx
      have := List.all_eq_true.mp h2 x hx
      simpa using this

theorem lineOKb_canon {l : List Char} (h : lineOKb l = true) :
    ∀ a b c d, rangeMatch l = some (a, b, c, d) → l = renderHeader a b c d := by
  intro a b c d hm
  unfold lineOKb at h
  simp only [Bool.and_eq_true] at h
  obtain ⟨-, h3⟩ := h
  rw [hm] at h3
  exact eq_of_beq h3

theorem rev1_minus (rest : List Char) : rev1 ('-' :: rest) = '+' :: rest := rfl

theorem rev1_plus (rest : List Char) : rev1 ('+' :: rest) = '-' :: rest := rfl

theorem rev1_other {l : List Char} (hm : rangeMatch l = none)
    (hhead : ∀ c rest, l = c :: rest → ¬ c = '-' ∧ ¬ c = '+') :
    rev1 l = l := by
  unfold rev1
  rw [hm]
  split
  · rename_i s1 l1 s2 l2 heq
    simp at heq
  · split
    · rename_i rest
      exact absurd rfl (hhead '-' rest rfl).1
    · rename_i rest
      exact absurd rfl (hhead '+' rest rfl).2
    · rfl

theorem renderHeader_shape (a c : List Char) (b d : Option (List Char))
    (ha2 : a.all Char.isDigit = true) (hc2 : c.all Char.isDigit = true)
    (hb : ∀ ds, b = some ds → ds.all Char.isDigit = true)
    (hd : ∀ ds, d = some ds → ds.all Char.isDigit = true) :
    ∃ q, renderHeader a b c d = q ++ ['\n'] ∧
      ∀ x ∈ q, isLineTerm x = false := by
  refine ⟨['@', '@', ' ', '-'] ++ (a ++ optPart b) ++ [' ', '+'] ++
    (c ++ optPart d) ++ [' ', '@', '@'], ?_, ?_⟩
  · simp [renderHeader]
  · intro x hx
    simp only [List.mem_append, List.mem_cons, List.not_mem_nil, or_false] at hx
    have hdig : ∀ y : Char, y.isDigit = true → isLineTerm y = false :=
      fun y hy => digit_not_term hy
    have hopt : ∀ (o : Option (List Char)),
        (∀ ds, o = some ds → ds.all Char.isDigit = true) →
        x ∈ optPart o → isLineTerm x = false := by
      intro o ho hxo
      cases o with
      | none => simp [optPart] at hxo
      | some ds =>
        simp only [optPart, List.mem_cons] at hxo
        rcases hxo with rfl | hxo
        · rfl
        · exact hdig x (List.all_eq_true.mp (ho ds rfl) x hxo)
    rcases hx with ((((rfl | rfl | rfl | rfl) | (hxa | hxb)) | (rfl | rfl)) |
        (hxc | hxd)) | (rfl | rfl | rfl)
    · rfl
    · rfl
    · rfl
    · rfl
    · exact hdig x (List.all_eq_true.mp ha2 x hxa)
    · exact hopt b hb hxb
    · rfl
    · rfl
    · exact hdig x (List.all_eq_true.mp hc2 x hxc)
    · exact hopt d hd hxd
    · rfl
    · rfl
    · rfl

theorem rev1_shape {l : List Char}
    (hsh : ∃ q, l = q ++ ['\n'] ∧ ∀ x ∈ q, isLineTerm x = false)
    (hcanon : ∀ a b c d, rangeMatch l = some (a, b, c, d) →
      l = renderHeader a b c d) :
    ∃ q, rev1 l = q ++ ['\n'] ∧ ∀ x ∈ q, isLineTerm x = false := by
  cases hm : rangeMatch l with
  | some g =>
    obtain ⟨a, b, c, dd⟩ := g
    obtain ⟨⟨ha1, ha2⟩, hbf, ⟨hc1, hc2⟩, hdf⟩ := rangeMatch_digits hm
    have hrev : rev1 l = renderHeader c dd a b := by
      unfold rev1
      rw [hm]
    rw [hrev]
    exact renderHeader_shape c a dd b hc2 ha2
      (fun ds h => (hdf ds h).2) (fun ds h => (hbf ds h).2)
  | none =>
    obtain ⟨q, hlq, hq⟩ := hsh
    subst hlq
    cases q with
    | nil => exact ⟨[], rfl, by simp⟩
    | cons x q' =>
      by_cases hx1 : x = '-'
      · subst hx1
        refine ⟨'+' :: q', ?_, ?_⟩
        · rw [List.cons_append, rev1_minus]
          rfl
        · intro y hy
          rcases List.mem_cons.mp hy with rfl | hy
          · rfl
          · exact hq y (List.mem_cons_of_mem _ hy)
      · by_cases hx2 : x = '+'
        · subst hx2
          refine ⟨'-' :: q', ?_, ?_⟩
          · rw [List.cons_append, rev1_plus]
            rfl
          · intro y hy
            rcases List.mem_cons.mp hy with rfl | hy
            · rfl
            · exact hq y (List.mem_cons_of_mem _ hy)
        · refine ⟨x :: q', ?_, hq⟩
          rw [rev1_other hm ?_]
          intro c rest hcr
          rw [List.cons_append] at hcr
          injection hcr with h1 h2
          subst h1
          exact ⟨hx1, hx2⟩

theorem rev1_invol {l : List Char}
    (hcanon : ∀ a b c d, rangeMatch l = some (a, b, c, d) →
      l = renderHeader a b c d) :
    rev1 (rev1 l) = l := by
  cases hm : rangeMatch l with
  | some g =>
    obtain ⟨a, b, c, dd⟩ := g
    obtain ⟨⟨ha1, ha2⟩, hbf, ⟨hc1, hc2⟩, hdf⟩ := rangeMatch_digits hm
    have hl := hcanon a b c dd hm
    have hrev : rev1 l = renderHeader c dd a b := by
      unfold rev1
      rw [hm]
    have hm2 : rangeMatch (renderHeader c dd a b) = some (c, dd, a, b) :=
      renderHeader_match c a dd b hc1 hc2 ha1 ha2 hdf hbf
    have hrev2 : rev1 (renderHeader c dd a b) = renderHeader a b c dd := by
      unfold rev1
      rw [hm2]
    rw [hrev, hrev2, ← hl]
  | none =>
    rcases l with _ | ⟨x, r⟩
    · rfl
    · by_cases hx1 : x = '-'
      · subst hx1
        rw [rev1_minus, rev1_plus]
      · by_cases hx2 : x = '+'
        · subst hx2
          rw [rev1_plus, rev1_minus]
        · have hother : rev1 (x :: r) = x :: r :=
            rev1_other hm (by
              intro c rest hcr
              injection hcr with h1 h2
              subst h1
              exact ⟨hx1, hx2⟩)
          rw [hother, hother]

theorem pySplitLines_nil : pySplitLines [] = [] := by
  rw [pySplitLines, splitAux_nil]
  rfl

theorem pySplitLines_cons (q rest : List Char)
    (hq : ∀ x ∈ q, isLineTerm x = false) :
    pySplitLines (q ++ '\n' :: rest) = (q ++ ['\n']) :: pySplitLines rest := by
  rw [pySplitLines, splitAux_line q rest [] hq]
  simp [pySplitLines]

theorem pySplitLines_single (q : List Char)
    (hq : ∀ x ∈ q, isLineTerm x = false) :
    pySplitLines (q ++ ['\n']) = [q ++ ['\n']] := by
  rw [show (q ++ ['\n'] : List Char) = q ++ '\n' :: ([] : List Char) from rfl,
    pySplitLines_cons q [] hq, pySplitLines_nil]

/-- C6 (counterexample): the parser accepts and copies a hunk header whose
`\s+` runs are two spaces wide; `reverse_unified_diff` re-renders headers
with single spaces, so its double application canonicalises the line
instead of restoring it. -/
theorem c6_counterexample :
    DiffParser.parseLines (DiffParser.init 100 [] []) ["@@  -1  +1 @@\n"] =
      .ok { diff := ["@@  -1  +1 @@\n"], success := true, remaining := some 2,
            blockLen := 0, direction := none, endNl := none, maxLines := 100,
            q1 := [], q2 := [] } ∧
    reverse_unified_diff (reverse_unified_diff "@@  -1  +1 @@\n") =
      "@@ -1 +1 @@\n" ∧
    ("@@ -1 +1 @@\n" : String) ≠ "@@  -1  +1 @@\n" := by
  refine ⟨rfl, ?_, by decide⟩
  have h1 : pySplitLines "@@  -1  +1 @@\n".data = ["@@  -1  +1 @@\n".data] := by
    have he : "@@  -1  +1 @@\n".data = "@@  -1  +1 @@".data ++ ['\n'] := by
      decide
    rw [he, pySplitLines_single _ (by decide)]
  have h2 : pySplitLines "@@ -1 +1 @@\n".data = ["@@ -1 +1 @@\n".data] := by
    have he : "@@ -1 +1 @@\n".data = "@@ -1 +1 @@".data ++ ['\n'] := by decide
    rw [he, pySplitLines_single _ (by decide)]
  have hinner : reverse_unified_diff "@@  -1  +1 @@\n" = "@@ -1 +1 @@\n" := by
    unfold reverse_unified_diff
    rw [h1]
    decide
  have houter : reverse_unified_diff "@@ -1 +1 @@\n" = "@@ -1 +1 @@\n" := by
    unfold reverse_unified_diff
    rw [h2]
    decide
  rw [hinner, houter]

/-- C6 (amended): `reverse_unified_diff` is an involution on every diff
text whose lines each end in `'\n'`, contain no other line-terminator
character, and whose hunk-header lines are in the canonical single-space
form that the external `diff` emits (which the parser's output has for all
real diff streams); an accepted non-canonical header refutes the unrestricted
statement. -/
theorem c6_amended (d : String)
    (hOK : ∀ l ∈ pySplitLines d.data, lineOKb l = true) :
    reverse_unified_diff (reverse_unified_diff d) = d := by
  have hshape : ∀ l ∈ pySplitLines d.data,
      ∃ q, l = q ++ ['\n'] ∧ ∀ x ∈ q, isLineTerm x = false :=
    fun l hl => lineOKb_shape (hOK l hl)
  have hcanon : ∀ l ∈ pySplitLines d.data, ∀ a b c dd,
      rangeMatch l = some (a, b, c, dd) → l = renderHeader a b c dd :=
    fun l hl => lineOKb_canon (hOK l hl)
  have hshape2 : ∀ l' ∈ (pySplitLines d.data).map rev1,
      ∃ q, l' = q ++ ['\n'] ∧ ∀ x ∈ q, isLineTerm x = false := by
    intro l' hl'
    obtain ⟨l, hl, rfl⟩ := List.mem_map.mp hl'
    exact rev1_shape (hshape l hl) (hcanon l hl)
  show String.mk ((pySplitLines
      (((pySplitLines d.data).map rev1).flatten)).map rev1).flatten = d
  rw [show pySplitLines (((pySplitLines d.data).map rev1).flatten) =
      (pySplitLines d.data).map rev1 from splitAux_of_shape _ hshape2]
  rw [List.map_map]
  have hmapid : (pySplitLines d.data).map (rev1 ∘ rev1) = pySplitLines d.data := by
    have hcg : ∀ l ∈ pySplitLines d.data, (rev1 ∘ rev1) l = id l :=
      fun l hl => rev1_invol (hcanon l hl)
    rw [List.map_congr_left hcg, List.map_id]
  rw [hmapid]
  have hflat : (pySplitLines d.data).flatten = d.data := by
    simpa [pySplitLines] using splitAux_flatten d.data.length d.data le_rfl []
  rw [hflat]

theorem c6_witness :
    reverse_unified_diff
        (reverse_unified_diff "@@ -1,2 +3 @@\n+a\n x\n") =
      "@@ -1,2 +3 @@\n+a\n x\n" := by
  apply c6_amended
  have hsplit : pySplitLines ("@@ -1,2 +3 @@\n+a\n x\n").data =
      ["@@ -1,2 +3 @@\n".data, "+a\n".data, " x\n".data] := by
    have he : ("@@ -1,2 +3 @@\n+a\n x\n").data =
        "@@ -1,2 +3 @@".data ++ '\n' ::
          ("+a".data ++ '\n' :: (" x".data ++ '\n' :: ([] : List Char))) := by
      decide
    rw [he, pySplitLines_cons _ _ (by decide), pySplitLines_cons _ _ (by decide),
      pySplitLines_cons _ _ (by decide), pySplitLines_nil]
    decide
  rw [hsplit]
  intro l hl
  simp only [List.mem_cons, List.not_mem_nil, or_false] at hl
  rcases hl with rfl | rfl | rfl <;> decide
